import Mathlib

/-!
Verification of the chioni16/ray-tracing renderer.

This file is a shallow embedding of the renderer's core into Lean 4.
`f64` values are modelled as elements of a linear ordered field
(rationals `ℚ` where the source only uses field operations and
comparisons, reals `ℝ` where the source takes square roots or
arbitrary powers).  Fallible Rust code (`assert!`, `unwrap`, panicking
indexing) is modelled with `Option`: `none` is a panic.  Rust `bool`
tests such as `float_is_eq` are modelled as decidable propositions.

Source files referenced throughout: `src/util.rs`, `src/float4.rs`,
`src/colour.rs`, `src/matrix.rs`, `src/object.rs`, `src/pattern.rs`,
`src/ray.rs`, `src/world.rs`.
-/

namespace RT

variable {α : Type} [LinearOrderedField α]

/-- `util.rs`: `pub const EPSILON: f64 = 1e-5;` -/
def EPSILON (α : Type) [LinearOrderedField α] : α := 1 / 100000

/-- `util.rs`: `float_is_eq(a, b) = (a - b).abs() < EPSILON`. -/
def float_is_eq (a b : α) : Prop := |a - b| < EPSILON α

instance float_is_eq.dec : ∀ a b : α, Decidable (float_is_eq a b) := fun a b => by
  unfold float_is_eq; infer_instance

theorem float_is_eq_refl (a : α) : float_is_eq a a := by
  simp only [float_is_eq, EPSILON, sub_self, abs_zero]
  norm_num

/-- `float4.rs`: `Float4(pub [f64; 4])`.  Field `x` is component `0`,
`y` is `1`, `z` is `2`, `w` is `3`. -/
structure Float4 (α : Type) where
  x : α
  y : α
  z : α
  w : α
  deriving DecidableEq

namespace Float4

/-- `Float4::new(x, y, z, w)`. -/
def new (x y z w : α) : Float4 α := ⟨x, y, z, w⟩

/-- `Float4::new_point(x, y, z)` sets `w = 1`. -/
def new_point (x y z : α) : Float4 α := ⟨x, y, z, 1⟩

/-- `Float4::origin()`. -/
def origin : Float4 α := new_point 0 0 0

/-- `Float4::new_vector(x, y, z)` sets `w = 0`. -/
def new_vector (x y z : α) : Float4 α := ⟨x, y, z, 0⟩

/-- `Float4::is_point`: `float_is_eq(self.0[3], 1.0)`. -/
def is_point (v : Float4 α) : Prop := float_is_eq v.w 1

/-- `Float4::is_vector`: `float_is_eq(self.0[3], 0.0)`. -/
def is_vector (v : Float4 α) : Prop := float_is_eq v.w 0

instance is_vector.dec : ∀ v : Float4 α, Decidable v.is_vector := fun v => by
  unfold is_vector; infer_instance

/-- `Float4::scalar_mul`. -/
def scalar_mul (v : Float4 α) (r : α) : Float4 α :=
  new (v.x * r) (v.y * r) (v.z * r) (v.w * r)

/-- `Float4::dot`. -/
def dot (a b : Float4 α) : α := a.x * b.x + a.y * b.y + a.z * b.z + a.w * b.w

/-- `impl Add for Float4`. -/
def add (a b : Float4 α) : Float4 α :=
  new (a.x + b.x) (a.y + b.y) (a.z + b.z) (a.w + b.w)

/-- `impl Neg for Float4`: `self.scalar_mul(-1.0)`. -/
def neg (a : Float4 α) : Float4 α := a.scalar_mul (-1)

/-- `impl Sub for Float4`: `self.add(rhs.neg())`. -/
def sub (a b : Float4 α) : Float4 α := a.add b.neg

/-- `Float4::cross`.  The source performs NO precondition check here:
it directly builds the vector of the three 3-D cross-product
components via `new_vector` (so the result always has `w = 0`),
whatever the operands' `w` components are. -/
def cross (a b : Float4 α) : Float4 α :=
  new_vector (a.y * b.z - a.z * b.y) (a.z * b.x - a.x * b.z)
    (a.x * b.y - a.y * b.x)

/-- `Float4::reflect`: `assert!(self.is_vector() && normal.is_vector())`
followed by `self.sub(normal.scalar_mul(2.0 * self.dot(normal)))`.
The failed assertion (a panic) is modelled as `none`. -/
def reflect (v normal : Float4 α) : Option (Float4 α) :=
  if v.is_vector ∧ normal.is_vector then
    some (v.sub (normal.scalar_mul (2 * v.dot normal)))
  else none

/-- `impl PartialEq for Float4`: component-wise `float_is_eq`. -/
def approxEq (a b : Float4 α) : Prop :=
  float_is_eq a.x b.x ∧ float_is_eq a.y b.y ∧ float_is_eq a.z b.z ∧
    float_is_eq a.w b.w

instance approxEq.dec : ∀ a b : Float4 α, Decidable (approxEq a b) := fun a b => by
  unfold approxEq; infer_instance

end Float4

/-- `colour.rs`: `Colour(pub Float4)`.  Every `Colour` constructor and
operation in the source routes the result through `Colour::new`
(directly, or via `From<Float4>`, which reads only components `0..=2`
of the underlying `Float4` and rebuilds it with `new_vector`), so the
wrapped `Float4` always has `w = 0`; the three channels are therefore
modelled as a record `r`/`g`/`b` of components `0`/`1`/`2`. -/
structure Colour (α : Type) where
  r : α
  g : α
  b : α
  deriving DecidableEq

namespace Colour

/-- `Colour::new(r, g, b)`. -/
def new (r g b : α) : Colour α := ⟨r, g, b⟩

/-- `Colour::black()`. -/
def black : Colour α := new 0 0 0

/-- `Colour::white()`. -/
def white : Colour α := new 1 1 1

/-- `Colour::scalar_product`: `self.0.scalar_mul(f).into()`. -/
def scalar_product (c : Colour α) (f : α) : Colour α :=
  new (c.r * f) (c.g * f) (c.b * f)

/-- `Colour::hadamard_product`, exactly as written in `colour.rs`
lines 24-30: the first two output channels multiply matching channels,
but the THIRD output channel is `self.0.0[2] * rhs.0.0[1]` — the
right-hand factor reads the second channel of `rhs`, not the third. -/
def hadamard_product (a rhs : Colour α) : Colour α :=
  new (a.r * rhs.r) (a.g * rhs.g) (a.b * rhs.g)

/-- `impl Add for Colour`: `self.0.add(rhs.0).into()`. -/
def add (a b : Colour α) : Colour α := new (a.r + b.r) (a.g + b.g) (a.b + b.b)

/-- `impl Sub for Colour`: `self.0.sub(rhs.0).into()`. -/
def sub (a b : Colour α) : Colour α := new (a.r - b.r) (a.g - b.g) (a.b - b.b)

instance : Add (Colour α) := ⟨add⟩

theorem add_def (a b : Colour α) :
    a + b = new (a.r + b.r) (a.g + b.g) (a.b + b.b) := rfl

/-- `impl PartialEq` derived for `Colour` delegates to `Float4`'s
approximate equality (the `w` components are both `0`). -/
def approxEq (a b : Colour α) : Prop :=
  float_is_eq a.r b.r ∧ float_is_eq a.g b.g ∧ float_is_eq a.b b.b

instance approxEq.dec : ∀ a b : Colour α, Decidable (approxEq a b) := fun a b => by
  unfold approxEq; infer_instance

end Colour

namespace Mtx

/-- `matrix.rs`: `Matrix(pub Vec<Vec<f64>>)`.  The renderer only ever
constructs square matrices; a square matrix of size `n` is modelled as
a Mathlib `Matrix (Fin n) (Fin n)`. -/
abbrev Mat (α : Type) (n : ℕ) := Matrix (Fin n) (Fin n) α

/-- `Matrix::multiply`: row-by-column products (the source transposes
`rhs` and takes row-row dot products, which is the same sum). -/
def multiply {n : ℕ} (A B : Mat α n) : Mat α n :=
  Matrix.of fun i j => ∑ k, A i k * B k j

/-- `Matrix::transpose`. -/
def transpose {n : ℕ} (A : Mat α n) : Mat α n := Matrix.of fun i j => A j i

/-- `Matrix::submatrix(row, col)`: drop row `r` and column `c`,
keeping the remaining entries in order. -/
def submatrix {n : ℕ} (A : Mat α (n + 1)) (r c : Fin (n + 1)) : Mat α n :=
  Matrix.of fun i j => A (r.succAbove i) (c.succAbove j)

/-- `Matrix::determinant`: the closed 2×2 form, else Laplace expansion
along row 0 with inlined `cofactor(0, col)` (signed minor).  The
source recursion bottoms out at size 2 (`determinant` of a smaller
matrix panics on an out-of-bounds index), so it is modelled for sizes
`n + 2` only. -/
def detAux : (n : ℕ) → Mat α (n + 2) → α
  | 0, M => M 0 0 * M 1 1 - M 1 0 * M 0 1
  | n + 1, M =>
      ∑ j : Fin (n + 3),
        M 0 j * ((if ((0 : ℕ) + (j : ℕ)) % 2 = 1 then -1 else 1) *
          detAux n (submatrix M 0 j))

/-- `Matrix::determinant`, size-implicit wrapper around `detAux`. -/
def determinant {n : ℕ} (M : Mat α (n + 2)) : α := detAux n M

/-- `Matrix::minor(row, col)`: determinant of the submatrix.  Only
well-defined (non-panicking) when the submatrix has size ≥ 2, hence
size `n + 3`. -/
def minor {n : ℕ} (M : Mat α (n + 3)) (r c : Fin (n + 3)) : α :=
  determinant (submatrix M r c)

/-- `Matrix::cofactor(row, col)`: `-1.0 * minor` when `row + col` is
odd, else `minor`. -/
def cofactor {n : ℕ} (M : Mat α (n + 3)) (r c : Fin (n + 3)) : α :=
  if ((r : ℕ) + (c : ℕ)) % 2 = 1 then -1 * minor M r c else minor M r c

/-- The matrix the `else` branch of `Matrix::inverse` fills in:
`inverse.0[col][row] = self.cofactor(row, col) / det`, i.e. the
transposed cofactor matrix divided by the determinant. -/
def invFormula {n : ℕ} (M : Mat α (n + 3)) : Mat α (n + 3) :=
  Matrix.of fun i j => cofactor M j i / determinant M

/-- `Matrix::inverse`: `None` when `float_is_eq(determinant, 0.0)`,
otherwise the transposed cofactor matrix divided by the determinant. -/
def inverse {n : ℕ} (M : Mat α (n + 3)) : Option (Mat α (n + 3)) :=
  if float_is_eq (determinant M) 0 then none else some (invFormula M)

/-- `impl PartialEq for Matrix`: same shape and component-wise
`float_is_eq` over all entries. -/
def approxEq {n : ℕ} (A B : Mat α n) : Prop :=
  ∀ i j, float_is_eq (A i j) (B i j)

instance approxEq.dec {n : ℕ} : ∀ A B : Mat α n, Decidable (approxEq A B) :=
  fun A B => by unfold approxEq; infer_instance

theorem approxEq_refl {n : ℕ} (A : Mat α n) : approxEq A A :=
  fun _ _ => float_is_eq_refl _

theorem approxEq_of_eq {n : ℕ} {A B : Mat α n} (h : A = B) : approxEq A B :=
  h ▸ approxEq_refl A

theorem sign_eq_pow (k : ℕ) : (if k % 2 = 1 then (-1 : α) else 1) = (-1) ^ k := by
  rcases Nat.even_or_odd k with h | h
  · rw [if_neg (by rw [Nat.even_iff] at h; omega), h.neg_one_pow]
  · rw [if_pos (Nat.odd_iff.mp h), h.neg_one_pow]

/-- The source's recursive cofactor-expansion determinant computes the
mathematical determinant. -/
theorem detAux_eq_det : ∀ (n : ℕ) (M : Mat α (n + 2)), detAux n M = Matrix.det M
  | 0, M => by
      rw [detAux, Matrix.det_fin_two]; ring
  | n + 1, M => by
      rw [detAux, Matrix.det_succ_row_zero]
      refine Finset.sum_congr rfl fun j _ => ?_
      rw [detAux_eq_det n (submatrix M 0 j)]
      have hsub : submatrix M 0 j =
          Matrix.submatrix M (Fin.succAbove 0) (Fin.succAbove j) := rfl
      rw [hsub, Fin.succAbove_zero, Nat.zero_add, sign_eq_pow]
      ring

theorem determinant_eq_det {n : ℕ} (M : Mat α (n + 2)) :
    determinant M = Matrix.det M := detAux_eq_det n M

theorem cofactor_eq {n : ℕ} (M : Mat α (n + 3)) (r c : Fin (n + 3)) :
    cofactor M r c =
      (-1) ^ ((r : ℕ) + (c : ℕ)) *
        Matrix.det (Matrix.submatrix M r.succAbove c.succAbove) := by
  rw [cofactor, ← sign_eq_pow, minor, determinant_eq_det]
  have hsub : submatrix M r c =
      Matrix.submatrix M (Fin.succAbove r) (Fin.succAbove c) := rfl
  rw [hsub]
  split <;> ring

theorem multiply_eq_mul {n : ℕ} (A B : Mat α n) :
    multiply A B = A * B := by
  ext i j
  simp [multiply, Matrix.mul_apply]

/-- The `else`-branch matrix of `Matrix::inverse` is the nonsingular
inverse `M⁻¹`. -/
theorem invFormula_eq_inv {n : ℕ} (M : Mat α (n + 3)) (h : Matrix.det M ≠ 0) :
    invFormula M = M⁻¹ := by
  ext i j
  rw [Matrix.inv_def, Ring.inverse_eq_inv]
  show cofactor M j i / determinant M = (Matrix.det M)⁻¹ • Matrix.adjugate M i j
  rw [cofactor_eq, ← Matrix.adjugate_fin_succ_eq_det_submatrix M i j,
    determinant_eq_det, smul_eq_mul, div_eq_inv_mul]

theorem determinant_eq_det3 (M : Mat α 3) : determinant M = Matrix.det M :=
  determinant_eq_det M

theorem ne_zero_of_not_float_is_eq {a : α} (h : ¬ float_is_eq a 0) : a ≠ 0 := by
  intro ha
  rw [ha] at h
  exact h (float_is_eq_refl 0)

end Mtx

/-- `object.rs`: `enum Shape { Sphere, Plane }`. -/
inductive Shape where
  | Sphere
  | Plane
  deriving DecidableEq

/-- `pattern.rs`: `enum PatternKind`. -/
inductive PatternKind (α : Type) where
  | Stripe (c1 c2 : Colour α)
  | Gradient (c1 c2 : Colour α)
  | Ring (c1 c2 : Colour α)
  | Checkers (c1 c2 : Colour α)
  | TestLocation

/-- `pattern.rs`: `struct Pattern { kind, transform }`. -/
structure Pattern (α : Type) where
  kind : PatternKind α
  transform : Mtx.Mat α 4

/-- `object.rs`: `struct Material`. -/
structure Material (α : Type) where
  colour : Colour α
  ambient : α
  diffuse : α
  specular : α
  shininess : α
  reflective : α
  transparency : α
  refractive_index : α
  pattern : Option (Pattern α)

/-- `impl Default for Material`. -/
def Material.default : Material α where
  colour := Colour.new 1 1 1
  ambient := 1 / 10
  diffuse := 9 / 10
  specular := 9 / 10
  shininess := 200
  reflective := 0
  transparency := 0
  refractive_index := 1
  pattern := none

/-- `object.rs`: `struct Object { shape, transform, material }`. -/
structure Object (α : Type) where
  shape : Shape
  transform : Mtx.Mat α 4
  material : Material α

/-- `matrix.rs`: `Matrix::identity(4)`. -/
def identity4 : Mtx.Mat α 4 := !![1, 0, 0, 0; 0, 1, 0, 0; 0, 0, 1, 0; 0, 0, 0, 1]

/-- `matrix.rs`: `translate(x, y, z)`. -/
def translate (x y z : α) : Mtx.Mat α 4 :=
  !![1, 0, 0, x; 0, 1, 0, y; 0, 0, 1, z; 0, 0, 0, 1]

/-- `matrix.rs`: `scale(x, y, z)`. -/
def scale (x y z : α) : Mtx.Mat α 4 :=
  !![x, 0, 0, 0; 0, y, 0, 0; 0, 0, z, 0; 0, 0, 0, 1]

/-- `#[derive(PartialEq)]` on `PatternKind`: same variant with
approximately equal colour payloads (`Colour`'s `PartialEq` is the
`ε`-tolerant `Float4` one). -/
def PatternKind.partialEq : PatternKind α → PatternKind α → Prop
  | .Stripe a b, .Stripe a' b' => Colour.approxEq a a' ∧ Colour.approxEq b b'
  | .Gradient a b, .Gradient a' b' => Colour.approxEq a a' ∧ Colour.approxEq b b'
  | .Ring a b, .Ring a' b' => Colour.approxEq a a' ∧ Colour.approxEq b b'
  | .Checkers a b, .Checkers a' b' => Colour.approxEq a a' ∧ Colour.approxEq b b'
  | .TestLocation, .TestLocation => True
  | _, _ => False

/-- `#[derive(PartialEq)]` on `Pattern`: field-wise. -/
def Pattern.partialEq (p q : Pattern α) : Prop :=
  PatternKind.partialEq p.kind q.kind ∧ Mtx.approxEq p.transform q.transform

/-- `PartialEq` on `Option<Pattern>` (as Rust derives for the
`pattern` field of `Material`). -/
def optPatternEq : Option (Pattern α) → Option (Pattern α) → Prop
  | none, none => True
  | some p, some q => Pattern.partialEq p q
  | _, _ => False

/-- `#[derive(PartialEq)]` on `Material`: `Colour` compares with the
`ε`-tolerant equality, the raw `f64` coefficient fields compare with
exact `==`. -/
def Material.partialEq (m n : Material α) : Prop :=
  Colour.approxEq m.colour n.colour ∧ m.ambient = n.ambient ∧
    m.diffuse = n.diffuse ∧ m.specular = n.specular ∧
    m.shininess = n.shininess ∧ m.reflective = n.reflective ∧
    m.transparency = n.transparency ∧
    m.refractive_index = n.refractive_index ∧
    optPatternEq m.pattern n.pattern

/-- `#[derive(PartialEq)]` on `Object`: same shape, approximately
equal transforms (`Matrix`'s `PartialEq`), `Material::partialEq`
materials.  This is the structural equality the refractive-index
stack uses for membership tests. -/
def Object.partialEq (o p : Object α) : Prop :=
  o.shape = p.shape ∧ Mtx.approxEq o.transform p.transform ∧
    Material.partialEq o.material p.material

theorem patternKindEq_refl (k : PatternKind α) : PatternKind.partialEq k k := by
  cases k <;> simp only [PatternKind.partialEq] <;>
    first
      | trivial
      | exact ⟨⟨float_is_eq_refl _, float_is_eq_refl _, float_is_eq_refl _⟩,
          ⟨float_is_eq_refl _, float_is_eq_refl _, float_is_eq_refl _⟩⟩

theorem optPatternEq_refl (p : Option (Pattern α)) : optPatternEq p p := by
  cases p with
  | none => trivial
  | some p => exact ⟨patternKindEq_refl _, Mtx.approxEq_refl _⟩

theorem materialEq_refl (m : Material α) : Material.partialEq m m :=
  ⟨⟨float_is_eq_refl _, float_is_eq_refl _, float_is_eq_refl _⟩, rfl, rfl, rfl, rfl,
    rfl, rfl, rfl, optPatternEq_refl _⟩

theorem objectEq_refl (o : Object α) : Object.partialEq o o :=
  ⟨rfl, Mtx.approxEq_refl _, materialEq_refl _⟩

/-- `ray.rs`: `struct Ray { origin, direction }`. -/
structure Ray (α : Type) where
  origin : Float4 α
  direction : Float4 α

/-- `Ray::position(t)`. -/
def Ray.position (r : Ray α) (t : α) : Float4 α :=
  r.origin.add (r.direction.scalar_mul t)

/-- `ray.rs`: `struct Intersection`.  `n1`/`n2` are `Option`s exactly
as in the source (absent until the refractive-index pass fills them
in). -/
structure Intersection (α : Type) where
  distance : α
  point : Float4 α
  eyev : Float4 α
  normalv : Float4 α
  reflectv : Float4 α
  inside : Bool
  ray : Ray α
  object : Object α
  n1 : Option α
  n2 : Option α

/-- `impl Default for Intersection`. -/
def Intersection.default : Intersection α where
  distance := 0
  point := Float4.origin
  eyev := Float4.new_vector 0 0 0
  normalv := Float4.new_vector 0 0 0
  reflectv := Float4.new_vector 0 0 0
  inside := false
  ray := ⟨Float4.origin, Float4.new_vector 0 0 0⟩
  object := ⟨Shape.Sphere, identity4, Material.default⟩
  n1 := none
  n2 := none

/-- `Intersection::over_point`: `point + normalv * EPSILON`. -/
def Intersection.over_point (i : Intersection α) : Float4 α :=
  i.point.add (i.normalv.scalar_mul (EPSILON α))

/-- `Intersection::under_point`: `point - normalv * EPSILON`. -/
def Intersection.under_point (i : Intersection α) : Float4 α :=
  i.point.sub (i.normalv.scalar_mul (EPSILON α))

/-- `containers.last().map_or(1.0, |o| o.material.refractive_index)`:
the refractive index of the object on top of the containers stack
(`Vec::push` appends, so the top is the last element), or `1.0`
(vacuum) for an empty stack. -/
def refrOfTop (containers : List (Object α)) : α :=
  (containers.getLast?).elim 1 fun o => o.material.refractive_index

open Classical in
/-- `containers.iter().position(|x| *x == cur_obj)`: index of the
first stack entry structurally equal to `cur_obj`. -/
noncomputable def position (containers : List (Object α)) (cur : Object α) : Option ℕ :=
  containers.findIdx? fun x => decide (Object.partialEq x cur)

/-- The stack update of `compute_refractive_indices`: remove the
first structurally equal entry if present (the ray exits the object),
otherwise push (the ray enters). -/
noncomputable def updateContainers (containers : List (Object α)) (cur : Object α) :
    List (Object α) :=
  match position containers cur with
  | some pos => containers.eraseIdx pos
  | none => containers ++ [cur]

/-- The inner loop of `compute_refractive_indices` for a fixed target
index `hi`: walk the full intersection list with counter `i` and the
containers stack; at `i == hi`, record `n1` from the current stack
top, update the stack with the object at `hi`, record `n2` from the
new top, and break.  For `i ≠ hi` just update the stack.  Returns
`none` only if the walk runs past the end of the list (never happens
for `hi < length`). -/
noncomputable def refrInner (hi : ℕ) : ℕ → List (Object α) → List (Intersection α) →
    Option (α × α)
  | _, _, [] => none
  | i, cs, ix :: rest =>
    if i = hi then
      some (refrOfTop cs, refrOfTop (updateContainers cs ix.object))
    else refrInner hi (i + 1) (updateContainers cs ix.object) rest

/-- The outer loop of `compute_refractive_indices`: `for hi in
0..count` runs the inner loop from scratch over the full list and
writes `n1`/`n2` into element `hi` only (objects are never modified,
so the iterations are independent). -/
noncomputable def refrAnnotate (full : List (Intersection α)) :
    ℕ → List (Intersection α) → List (Intersection α)
  | _, [] => []
  | hi, ix :: rest =>
      (match refrInner hi 0 [] full with
       | some (a, b) => { ix with n1 := some a, n2 := some b }
       | none => ix) :: refrAnnotate full (hi + 1) rest

/-- `Intersections::compute_refractive_indices`. -/
noncomputable def compute_refractive_indices (l : List (Intersection α)) :
    List (Intersection α) :=
  refrAnnotate l 0 l

/-- `Intersections::new`: wrap the vector and run the
refractive-index pass over the whole list. -/
noncomputable def Intersections.new (l : List (Intersection α)) : List (Intersection α) :=
  compute_refractive_indices l

open Classical in
/-- The loop of `Intersections::hit_index`.  `mp` is the running
`min_pos_distance`: `none` models the initial `f64::MAX` sentinel,
which every positive distance is below; `hi` is the running best
index. -/
noncomputable def hit_index_aux : List (Intersection α) → ℕ → Option α → Option ℕ → Option ℕ
  | [], _, _, hi => hi
  | ix :: rest, i, mp, hi =>
    if 0 < ix.distance ∧ ∀ m ∈ mp, ix.distance < m then
      hit_index_aux rest (i + 1) (some ix.distance) (some i)
    else hit_index_aux rest (i + 1) mp hi

/-- `Intersections::hit_index`. -/
noncomputable def hit_index (l : List (Intersection α)) : Option ℕ :=
  hit_index_aux l 0 none none

/-- `Intersections::hit`: clone the intersection at `hit_index`
(the index returned by the loop is always in range). -/
noncomputable def hit (l : List (Intersection α)) : Option (Intersection α) :=
  (hit_index l).bind fun hi => l.get? hi


/-- The stack-specification view of the refractive-index pass: the
containers stack in force just before intersection `hi` is processed
is the fold of the enter/exit update over the objects of the first
`hi` intersections, starting from the empty stack. -/
noncomputable def foldContainers (cs : List (Object α)) (t : List (Intersection α)) :
    List (Object α) :=
  t.foldl (fun c ix => updateContainers c ix.object) cs

noncomputable def containersBefore (l : List (Intersection α)) (hi : ℕ) :
    List (Object α) :=
  foldContainers [] (l.take hi)

/-- The inner loop of the refractive-index pass, started at counter
`i` with stack `cs`, reaches its target `hi` with the stack equal to
the fold of the update over the intersections it walked past, and
returns the `(n1, n2)` pair read off that stack before and after the
update at `hi`. -/
theorem refrInner_eq (l : List (Intersection α)) : ∀ (i hi : ℕ) (cs : List (Object α)),
    i ≤ hi → hi - i < l.length →
    refrInner hi i cs l =
      some (refrOfTop (foldContainers cs (l.take (hi - i))),
        refrOfTop (updateContainers (foldContainers cs (l.take (hi - i)))
          (l.getD (hi - i) Intersection.default).object)) := by
  induction l with
  | nil => intro i hi cs _ h; simp at h
  | cons x rest ih =>
    intro i hi cs hle h
    by_cases hih : i = hi
    · subst hih
      rw [refrInner, if_pos rfl]
      simp [Nat.sub_self, foldContainers]
    · have hlt : i < hi := lt_of_le_of_ne hle hih
      obtain ⟨d, hd⟩ : ∃ d, hi - i = d + 1 := ⟨hi - i - 1, by omega⟩
      have h' : hi - (i + 1) < rest.length := by
        simp only [List.length_cons] at h; omega
      rw [refrInner, if_neg hih, ih (i + 1) hi (updateContainers cs x.object) (by omega) h']
      have hd' : hi - (i + 1) = d := by omega
      rw [hd, hd', List.take_succ_cons, List.getD_cons_succ]
      rfl

theorem refrAnnotate_length (full : List (Intersection α)) :
    ∀ (k : ℕ) (l : List (Intersection α)), (refrAnnotate full k l).length = l.length := by
  intro k l
  induction l generalizing k with
  | nil => rfl
  | cons x rest ih => rw [refrAnnotate]; simp [ih]

theorem refrAnnotate_getD (full : List (Intersection α)) :
    ∀ (l : List (Intersection α)) (k j : ℕ), j < l.length →
    (refrAnnotate full k l).getD j Intersection.default =
      match refrInner (k + j) 0 [] full with
      | some (a, b) => { l.getD j Intersection.default with n1 := some a, n2 := some b }
      | none => l.getD j Intersection.default := by
  intro l
  induction l with
  | nil => intro k j h; simp at h
  | cons x rest ih =>
    intro k j hj
    rw [refrAnnotate]
    rcases j with _ | j
    · simp
    · rw [List.getD_cons_succ, List.getD_cons_succ,
        ih (k + 1) j (by simp only [List.length_cons] at hj; omega)]
      have : k + 1 + j = k + (j + 1) := by omega
      rw [this]

/-- The refractive-index pass, specified: element `hi` of the
annotated list carries `n1` read from the top of the containers stack
before the update at `hi` and `n2` read after it. -/
theorem refr_pass_spec (l : List (Intersection α)) (hi : ℕ) (h : hi < l.length) :
    ((Intersections.new l).getD hi Intersection.default).n1 =
        some (refrOfTop (containersBefore l hi)) ∧
    ((Intersections.new l).getD hi Intersection.default).n2 =
        some (refrOfTop (updateContainers (containersBefore l hi)
          (l.getD hi Intersection.default).object)) ∧
    ((Intersections.new l).getD hi Intersection.default).distance =
        (l.getD hi Intersection.default).distance ∧
    ((Intersections.new l).getD hi Intersection.default).object =
        (l.getD hi Intersection.default).object := by
  have hrw := refrAnnotate_getD (α := α) l l 0 hi h
  simp only [Nat.zero_add] at hrw
  rw [refrInner_eq l 0 hi [] (Nat.zero_le hi) (by simpa using h)] at hrw
  rw [Intersections.new, compute_refractive_indices]
  rw [hrw]
  exact ⟨rfl, by rw [Nat.sub_zero]; rfl, rfl, rfl⟩

/-- Concrete scene of the C2 example (the three concentric
transparent spheres of the `refractive_index` test in `ray.rs`):
outer sphere, refractive index `1.5`. -/
noncomputable def sphereA : Object ℚ :=
  ⟨Shape.Sphere, scale 2 2 2,
    { Material.default with transparency := 1, refractive_index := 3 / 2 }⟩

/-- Middle sphere, refractive index `2.0`. -/
noncomputable def sphereB : Object ℚ :=
  ⟨Shape.Sphere, translate 0 0 (-1 / 4),
    { Material.default with transparency := 1, refractive_index := 2 }⟩

/-- Inner sphere, refractive index `2.5`. -/
noncomputable def sphereC : Object ℚ :=
  ⟨Shape.Sphere, translate 0 0 (1 / 4),
    { Material.default with transparency := 1, refractive_index := 5 / 2 }⟩

/-- An intersection record carrying only the data the
refractive-index pass reads: a distance and an object. -/
noncomputable def mkIx (d : ℚ) (o : Object ℚ) : Intersection ℚ :=
  { Intersection.default with distance := d, object := o }

/-- The six distance-ordered intersections of one ray with the three
concentric spheres, in the order `a, b, c, b, c, a` (distances
`2, 2.75, 3.25, 4.75, 5.25, 6`). -/
noncomputable def exampleIxs : List (Intersection ℚ) :=
  [mkIx 2 sphereA, mkIx (11 / 4) sphereB, mkIx (13 / 4) sphereC,
    mkIx (19 / 4) sphereB, mkIx (21 / 4) sphereC, mkIx 6 sphereA]

theorem sphereA_ne_B : ¬ Object.partialEq sphereA sphereB := by
  intro h
  have h00 := h.2.1 0 0
  rw [sphereA, sphereB] at h00
  simp only [scale, translate] at h00
  norm_num [float_is_eq, EPSILON, Matrix.cons_val_zero, Matrix.cons_val_one,
    Matrix.head_cons] at h00

theorem sphereA_ne_C : ¬ Object.partialEq sphereA sphereC := by
  intro h
  have h00 := h.2.1 0 0
  rw [sphereA, sphereC] at h00
  simp only [scale, translate] at h00
  norm_num [float_is_eq, EPSILON, Matrix.cons_val_zero, Matrix.cons_val_one,
    Matrix.head_cons] at h00

theorem sphereB_ne_C : ¬ Object.partialEq sphereB sphereC := by
  intro h
  have h23 := h.2.1 2 3
  rw [sphereB, sphereC] at h23
  simp only [translate] at h23
  norm_num [float_is_eq, EPSILON, abs_lt] at h23

theorem sphereA_refr : sphereA.material.refractive_index = 3 / 2 := rfl

theorem sphereB_refr : sphereB.material.refractive_index = 2 := rfl

theorem sphereC_refr : sphereC.material.refractive_index = 5 / 2 := rfl

/-- One step of the `hit_index` loop accepts intersection distance
`d` when it is strictly positive and strictly below the running
minimum (`none` = the initial `f64::MAX` sentinel). -/
def beats (mp : Option α) (d : α) : Prop := 0 < d ∧ ∀ m ∈ mp, d < m

open Classical in
/-- Specification view of the `hit_index` loop over a suffix: the
relative index of the entry the loop would select given running
minimum `mp`, `none` if it selects nothing. -/
noncomputable def firstMin : List (Intersection α) → Option α → Option ℕ
  | [], _ => none
  | ix :: rest, mp =>
    if beats mp ix.distance then
      match firstMin rest (some ix.distance) with
      | some j => some (j + 1)
      | none => some 0
    else (firstMin rest mp).map (· + 1)

theorem hit_index_aux_eq : ∀ (l : List (Intersection α)) (i : ℕ) (mp : Option α)
    (hi : Option ℕ),
    hit_index_aux l i mp hi =
      match firstMin l mp with
      | some j => some (i + j)
      | none => hi := by
  intro l
  induction l with
  | nil => intro i mp hi; rfl
  | cons x rest ih =>
    intro i mp hi
    rw [hit_index_aux, firstMin]
    by_cases hb : beats mp x.distance
    · rw [if_pos hb, if_pos (id hb : 0 < x.distance ∧ ∀ m ∈ mp, x.distance < m),
        ih (i + 1) (some x.distance) (some i)]
      cases firstMin rest (some x.distance) with
      | none => simp
      | some j => simp; omega
    · rw [if_neg hb, if_neg (id hb : ¬(0 < x.distance ∧ ∀ m ∈ mp, x.distance < m)),
        ih (i + 1) mp hi]
      cases firstMin rest mp with
      | none => simp
      | some j => simp; omega

theorem firstMin_none_iff : ∀ (l : List (Intersection α)) (mp : Option α),
    firstMin l mp = none ↔ ∀ ix ∈ l, ¬ beats mp ix.distance := by
  intro l
  induction l with
  | nil => intro mp; simp [firstMin]
  | cons x rest ih =>
    intro mp
    rw [firstMin]
    by_cases hb : beats mp x.distance
    · rw [if_pos hb]
      constructor
      · intro h
        cases hfm : firstMin rest (some x.distance) <;> rw [hfm] at h <;> simp at h
      · intro h
        exact absurd hb (h x (List.mem_cons_self x rest))
    · rw [if_neg hb]
      simp only [Option.map_eq_none', ih mp, List.forall_mem_cons]
      exact ⟨fun h => ⟨hb, h⟩, fun h => h.2⟩

theorem firstMin_some_spec : ∀ (l : List (Intersection α)) (mp : Option α) (j : ℕ),
    firstMin l mp = some j →
    j < l.length ∧ beats mp ((l.getD j Intersection.default).distance) ∧
    (∀ k, k < l.length → beats mp ((l.getD k Intersection.default).distance) →
      (l.getD j Intersection.default).distance ≤
        (l.getD k Intersection.default).distance) ∧
    (∀ k, k < j → beats mp ((l.getD k Intersection.default).distance) →
      (l.getD j Intersection.default).distance <
        (l.getD k Intersection.default).distance) := by
  intro l
  induction l with
  | nil => intro mp j h; simp [firstMin] at h
  | cons x rest ih =>
    intro mp j hj
    rw [firstMin] at hj
    by_cases hb : beats mp x.distance
    · rw [if_pos hb] at hj
      cases hfm : firstMin rest (some x.distance) with
      | some j' =>
        rw [hfm] at hj
        obtain rfl : j = j' + 1 := by simpa using hj.symm
        obtain ⟨hlen, hbt, hmin, hfirst⟩ := ih (some x.distance) j' hfm
        have hdj_lt_x : (rest.getD j' Intersection.default).distance < x.distance :=
          hbt.2 x.distance rfl
        refine ⟨by simpa using Nat.succ_lt_succ hlen, ?_, ?_, ?_⟩
        · rw [List.getD_cons_succ]
          exact ⟨hbt.1, fun m hm => lt_trans hdj_lt_x (hb.2 m hm)⟩
        · intro k hk hbk
          rw [List.getD_cons_succ]
          rcases k with _ | k'
          · rw [List.getD_cons_zero] at hbk ⊢
            exact le_of_lt hdj_lt_x
          · rw [List.getD_cons_succ] at hbk ⊢
            by_cases hx : (rest.getD k' Intersection.default).distance < x.distance
            · exact hmin k' (by simpa using hk)
                ⟨hbk.1, fun m hm => Option.mem_some_iff.mp hm ▸ hx⟩
            · exact le_trans (le_of_lt hdj_lt_x) (not_lt.mp hx)
        · intro k hk hbk
          rw [List.getD_cons_succ]
          rcases k with _ | k'
          · rw [List.getD_cons_zero] at hbk ⊢
            exact hdj_lt_x
          · rw [List.getD_cons_succ] at hbk ⊢
            by_cases hx : (rest.getD k' Intersection.default).distance < x.distance
            · exact hfirst k' (by omega)
                ⟨hbk.1, fun m hm => Option.mem_some_iff.mp hm ▸ hx⟩
            · exact lt_of_lt_of_le hdj_lt_x (not_lt.mp hx)
      | none =>
        rw [hfm] at hj
        obtain rfl : j = 0 := by simpa using hj.symm
        refine ⟨by simp, by rw [List.getD_cons_zero]; exact hb, ?_, ?_⟩
        · intro k hk hbk
          rw [List.getD_cons_zero]
          rcases k with _ | k'
          · rw [List.getD_cons_zero] at hbk; exact le_refl _
          · rw [List.getD_cons_succ] at hbk ⊢
            by_contra hcon
            have hlt : (rest.getD k' Intersection.default).distance < x.distance :=
              not_le.mp hcon
            have hmem : rest.getD k' Intersection.default ∈ rest := by
              have hk' : k' < rest.length := by simpa using hk
              rw [List.getD_eq_getElem?_getD, List.getElem?_eq_getElem hk',
                Option.getD_some]
              exact List.getElem_mem hk'
            exact (firstMin_none_iff rest (some x.distance)).mp hfm _ hmem
              ⟨hbk.1, fun m hm => Option.mem_some_iff.mp hm ▸ hlt⟩
        · intro k hk
          exact absurd hk (Nat.not_lt_zero k)
    · rw [if_neg hb] at hj
      cases hfm : firstMin rest mp with
      | none => rw [hfm] at hj; simp at hj
      | some j' =>
        rw [hfm] at hj
        obtain rfl : j = j' + 1 := by simpa using hj.symm
        obtain ⟨hlen, hbt, hmin, hfirst⟩ := ih mp j' hfm
        refine ⟨by simpa using Nat.succ_lt_succ hlen, by rw [List.getD_cons_succ]; exact hbt,
          ?_, ?_⟩
        · intro k hk hbk
          rw [List.getD_cons_succ]
          rcases k with _ | k'
          · rw [List.getD_cons_zero] at hbk
            exact absurd hbk hb
          · rw [List.getD_cons_succ] at hbk ⊢
            exact hmin k' (by simpa using hk) hbk
        · intro k hk hbk
          rw [List.getD_cons_succ]
          rcases k with _ | k'
          · rw [List.getD_cons_zero] at hbk
            exact absurd hbk hb
          · rw [List.getD_cons_succ] at hbk ⊢
            exact hfirst k' (by omega) hbk

/-- An intersection record carrying only a distance (all other fields
defaulted), for the C3 examples. -/
noncomputable def mkDist (d : ℚ) : Intersection ℚ :=
  { Intersection.default with distance := d }

end RT

/-- C6: `Matrix::inverse` returns `None` exactly when the determinant
is within `ε` of zero, and otherwise returns the transposed cofactor
matrix divided by the determinant; a singular matrix is reported, not
silently treated as identity.  (Stated for all sizes `n + 3`, i.e.
all sizes on which the source's recursive cofactor code operates
without panicking; the spec's data model only uses 4×4 matrices.) -/
theorem C6_inverse_reports_singular {n : ℕ} (M : RT.Mtx.Mat ℚ (n + 3)) :
    (RT.Mtx.inverse M = none ↔ RT.float_is_eq (RT.Mtx.determinant M) 0) ∧
    (¬ RT.float_is_eq (RT.Mtx.determinant M) 0 →
      RT.Mtx.inverse M =
        some (Matrix.of fun i j =>
          RT.Mtx.transpose (Matrix.of fun r c => RT.Mtx.cofactor M r c) i j /
            RT.Mtx.determinant M)) := by
  constructor
  · rw [RT.Mtx.inverse]
    by_cases h : RT.float_is_eq (RT.Mtx.determinant M) 0
    · rw [if_pos h]; simp [h]
    · rw [if_neg h]; simp [h]
  · intro h
    rw [RT.Mtx.inverse, if_neg h]
    rfl

/-- C6 witness: a concrete invertible 3×3 matrix (determinant 2, not
within `ε` of zero) on which `inverse` returns the cofactor formula. -/
theorem C6_inverse_reports_singular_witness :
    ¬ RT.float_is_eq (RT.Mtx.determinant (!![2, 0, 0; 0, 1, 0; 0, 0, 1] : RT.Mtx.Mat ℚ 3)) 0 ∧
    RT.Mtx.inverse (!![2, 0, 0; 0, 1, 0; 0, 0, 1] : RT.Mtx.Mat ℚ 3) =
      some (Matrix.of fun i j =>
        RT.Mtx.transpose
            (Matrix.of fun r c =>
              RT.Mtx.cofactor (!![2, 0, 0; 0, 1, 0; 0, 0, 1] : RT.Mtx.Mat ℚ 3) r c) i j /
          RT.Mtx.determinant (!![2, 0, 0; 0, 1, 0; 0, 0, 1] : RT.Mtx.Mat ℚ 3)) := by
  have h : ¬ RT.float_is_eq
      (RT.Mtx.determinant (!![2, 0, 0; 0, 1, 0; 0, 0, 1] : RT.Mtx.Mat ℚ 3)) 0 := by
    rw [RT.Mtx.determinant_eq_det3]
    simp only [Matrix.det_fin_three]
    norm_num [RT.float_is_eq, RT.EPSILON]
  exact ⟨h, (C6_inverse_reports_singular _).2 h⟩

/-- C1: `hadamard_product` is NOT the component-wise product: on
`a = (1, 2, 3)` and `b = (4, 5, 6)` the code returns `(4, 10, 15)` —
the third channel is `a.b * b.g = 3 * 5 = 15`, not
`a.b * b.b = 3 * 6 = 18` as the claim (and the function's name)
require.  This evaluates the code at the failing input. -/
theorem C1_hadamard_third_channel_bug :
    RT.Colour.hadamard_product (RT.Colour.new (1 : ℚ) 2 3) (RT.Colour.new 4 5 6) =
      RT.Colour.new 4 10 15 ∧
    (RT.Colour.hadamard_product (RT.Colour.new (1 : ℚ) 2 3) (RT.Colour.new 4 5 6)).b ≠ 3 * 6 := by
  refine ⟨?_, ?_⟩ <;> norm_num [RT.Colour.hadamard_product, RT.Colour.new]

/-- C8 counterexample: `cross` performs no vector-ness assertion.
Applied to a point operand (`w = 1`, so `is_vector` is `false`) it
still returns a value — the claim that both `cross` and `reflect`
check their operands and fail on non-vectors is false for `cross`. -/
theorem C8_cross_does_not_check_counterexample :
    ¬ RT.Float4.is_vector (RT.Float4.new_point (1 : ℚ) 2 3) ∧
    RT.Float4.cross (RT.Float4.new_point (1 : ℚ) 2 3) (RT.Float4.new_vector 0 1 0) =
      RT.Float4.new_vector (-3) 0 1 := by
  constructor
  · norm_num [RT.Float4.is_vector, RT.float_is_eq, RT.EPSILON, RT.Float4.new_point]
  · norm_num [RT.Float4.cross, RT.Float4.new_point, RT.Float4.new_vector]

/-- C8 (amended): `reflect` asserts that both of its operands are
vectors (`w ≈ 0`) and fails — returns no value — whenever either
operand is a non-vector; `cross` performs no such check and always
returns a value (with `w = 0`) regardless of its operands. -/
theorem C8_reflect_asserts_vectors_cross_does_not (v n a b : RT.Float4 ℚ) :
    (RT.Float4.reflect v n = none ↔
      ¬(RT.Float4.is_vector v ∧ RT.Float4.is_vector n)) ∧
    (RT.Float4.cross a b).w = 0 := by
  constructor
  · rw [RT.Float4.reflect]
    by_cases h : RT.Float4.is_vector v ∧ RT.Float4.is_vector n
    · rw [if_pos h]; simp [h]
    · rw [if_neg h]; simp [h]
  · rfl

/-- C7 (amended): for an invertible matrix `M` (determinant not within
`ε` of zero) the product `M · inverse(M)` is (exactly, hence
approximately) the identity, and `inverse(inverse(M))` is returned and
approximately equal to `M` PROVIDED the determinant of `inverse(M)` is
itself not within `ε` of zero.  The proviso is forced by the
counterexample below: the source's `inverse` rejects any matrix whose
determinant is within `ε` of zero, which `inverse(M)` is whenever
`|det M| > 1/ε`. -/
theorem C7_inverse_roundtrip {n : ℕ} (M : RT.Mtx.Mat ℚ (n + 3))
    (h : ¬ RT.float_is_eq (RT.Mtx.determinant M) 0) :
    RT.Mtx.approxEq (RT.Mtx.multiply M (RT.Mtx.invFormula M)) 1 ∧
    RT.Mtx.inverse M = some (RT.Mtx.invFormula M) ∧
    (¬ RT.float_is_eq (RT.Mtx.determinant (RT.Mtx.invFormula M)) 0 →
      RT.Mtx.inverse (RT.Mtx.invFormula M) =
        some (RT.Mtx.invFormula (RT.Mtx.invFormula M)) ∧
      RT.Mtx.approxEq (RT.Mtx.invFormula (RT.Mtx.invFormula M)) M) := by
  have hdet : Matrix.det M ≠ 0 := by
    rw [RT.Mtx.determinant_eq_det] at h
    exact RT.Mtx.ne_zero_of_not_float_is_eq h
  have hinv := RT.Mtx.invFormula_eq_inv M hdet
  refine ⟨?_, ?_, ?_⟩
  · apply RT.Mtx.approxEq_of_eq
    rw [RT.Mtx.multiply_eq_mul, hinv,
      Matrix.mul_nonsing_inv _ (isUnit_iff_ne_zero.mpr hdet)]
  · rw [RT.Mtx.inverse, if_neg h]
  · intro h2
    have hdet2 : Matrix.det (RT.Mtx.invFormula M) ≠ 0 := by
      rw [RT.Mtx.determinant_eq_det] at h2
      exact RT.Mtx.ne_zero_of_not_float_is_eq h2
    constructor
    · rw [RT.Mtx.inverse, if_neg h2]
    · apply RT.Mtx.approxEq_of_eq
      rw [RT.Mtx.invFormula_eq_inv _ hdet2, hinv,
        Matrix.nonsing_inv_nonsing_inv _ (isUnit_iff_ne_zero.mpr hdet)]

/-- C7 counterexample: the diagonal matrix `diag(100, 100, 100)` is
invertible (determinant `10^6`, not within `ε` of zero) and `inverse`
returns its transposed-cofactor inverse, but `inverse(inverse(M))`
returns `None` — the determinant of the inverse is `10^-6`, within
`ε = 10^-5` of zero — so `inverse(inverse(M)) ≈ M` fails: no matrix is
returned at all. -/
theorem C7_inverse_roundtrip_counterexample :
    ¬ RT.float_is_eq
        (RT.Mtx.determinant (!![100, 0, 0; 0, 100, 0; 0, 0, 100] : RT.Mtx.Mat ℚ 3)) 0 ∧
    RT.Mtx.inverse (!![100, 0, 0; 0, 100, 0; 0, 0, 100] : RT.Mtx.Mat ℚ 3) =
      some (RT.Mtx.invFormula (!![100, 0, 0; 0, 100, 0; 0, 0, 100] : RT.Mtx.Mat ℚ 3)) ∧
    RT.Mtx.inverse
        (RT.Mtx.invFormula (!![100, 0, 0; 0, 100, 0; 0, 0, 100] : RT.Mtx.Mat ℚ 3)) = none := by
  have hd : Matrix.det (!![100, 0, 0; 0, 100, 0; 0, 0, 100] : RT.Mtx.Mat ℚ 3) = 1000000 := by
    simp [Matrix.det_fin_three]
    norm_num
  have h1 : ¬ RT.float_is_eq
      (RT.Mtx.determinant (!![100, 0, 0; 0, 100, 0; 0, 0, 100] : RT.Mtx.Mat ℚ 3)) 0 := by
    rw [RT.Mtx.determinant_eq_det3, hd]
    norm_num [RT.float_is_eq, RT.EPSILON]
  have hdet0 : Matrix.det (!![100, 0, 0; 0, 100, 0; 0, 0, 100] : RT.Mtx.Mat ℚ 3) ≠ 0 := by
    rw [hd]; norm_num
  have h3 : RT.float_is_eq
      (RT.Mtx.determinant
        (RT.Mtx.invFormula (!![100, 0, 0; 0, 100, 0; 0, 0, 100] : RT.Mtx.Mat ℚ 3))) 0 := by
    rw [RT.Mtx.determinant_eq_det3, RT.Mtx.invFormula_eq_inv _ hdet0,
      Matrix.det_nonsing_inv, hd]
    norm_num [RT.float_is_eq, RT.EPSILON, Ring.inverse_eq_inv, abs_lt]
  exact ⟨h1, by rw [RT.Mtx.inverse, if_neg h1], by rw [RT.Mtx.inverse, if_pos h3]⟩

/-- C7 witness: the 3×3 identity matrix satisfies both determinant
side conditions, so both round-trip halves of the amended claim apply
to it. -/
theorem C7_inverse_roundtrip_witness :
    ¬ RT.float_is_eq
        (RT.Mtx.determinant (!![1, 0, 0; 0, 1, 0; 0, 0, 1] : RT.Mtx.Mat ℚ 3)) 0 ∧
    ¬ RT.float_is_eq
        (RT.Mtx.determinant
          (RT.Mtx.invFormula (!![1, 0, 0; 0, 1, 0; 0, 0, 1] : RT.Mtx.Mat ℚ 3))) 0 ∧
    RT.Mtx.approxEq
      (RT.Mtx.multiply (!![1, 0, 0; 0, 1, 0; 0, 0, 1] : RT.Mtx.Mat ℚ 3)
        (RT.Mtx.invFormula (!![1, 0, 0; 0, 1, 0; 0, 0, 1] : RT.Mtx.Mat ℚ 3))) 1 ∧
    RT.Mtx.inverse (RT.Mtx.invFormula (!![1, 0, 0; 0, 1, 0; 0, 0, 1] : RT.Mtx.Mat ℚ 3)) =
      some (RT.Mtx.invFormula
        (RT.Mtx.invFormula (!![1, 0, 0; 0, 1, 0; 0, 0, 1] : RT.Mtx.Mat ℚ 3))) ∧
    RT.Mtx.approxEq
      (RT.Mtx.invFormula (RT.Mtx.invFormula (!![1, 0, 0; 0, 1, 0; 0, 0, 1] : RT.Mtx.Mat ℚ 3)))
      (!![1, 0, 0; 0, 1, 0; 0, 0, 1] : RT.Mtx.Mat ℚ 3) := by
  have hd : Matrix.det (!![1, 0, 0; 0, 1, 0; 0, 0, 1] : RT.Mtx.Mat ℚ 3) = 1 := by
    simp [Matrix.det_fin_three]
  have h1 : ¬ RT.float_is_eq
      (RT.Mtx.determinant (!![1, 0, 0; 0, 1, 0; 0, 0, 1] : RT.Mtx.Mat ℚ 3)) 0 := by
    rw [RT.Mtx.determinant_eq_det3, hd]
    norm_num [RT.float_is_eq, RT.EPSILON]
  have hdet0 : Matrix.det (!![1, 0, 0; 0, 1, 0; 0, 0, 1] : RT.Mtx.Mat ℚ 3) ≠ 0 := by
    rw [hd]; norm_num
  have h2 : ¬ RT.float_is_eq
      (RT.Mtx.determinant
        (RT.Mtx.invFormula (!![1, 0, 0; 0, 1, 0; 0, 0, 1] : RT.Mtx.Mat ℚ 3))) 0 := by
    rw [RT.Mtx.determinant_eq_det3, RT.Mtx.invFormula_eq_inv _ hdet0,
      Matrix.det_nonsing_inv, hd]
    norm_num [RT.float_is_eq, RT.EPSILON, Ring.inverse_eq_inv]
  obtain ⟨a, -, cde⟩ := C7_inverse_roundtrip (!![1, 0, 0; 0, 1, 0; 0, 0, 1] : RT.Mtx.Mat ℚ 3) h1
  obtain ⟨d, e⟩ := cde h2
  exact ⟨h1, h2, a, d, e⟩

/-- C2: the refractive-index pass.  General part: for every
intersection list and every position `hi` in it, the recorded `n1` is
the refractive index at the top of the containers stack obtained by
folding the enter/exit update (remove the first structurally equal
object if present, else push) over the first `hi` intersections —
`1.0` when that stack is empty — and `n2` is the index at the top
after the update with the object at `hi`.  Concrete part: the three
concentric transparent spheres (indices `1.5`, `2.0`, `2.5`) pierced
by one ray produce the documented six-step `(n1, n2)` sequence. -/
theorem C2_refractive_index_stack :
    (∀ (l : List (RT.Intersection ℚ)) (hi : ℕ), hi < l.length →
      ((RT.Intersections.new l).getD hi RT.Intersection.default).n1 =
          some (RT.refrOfTop (RT.containersBefore l hi)) ∧
      ((RT.Intersections.new l).getD hi RT.Intersection.default).n2 =
          some (RT.refrOfTop (RT.updateContainers (RT.containersBefore l hi)
            (l.getD hi RT.Intersection.default).object))) ∧
    (RT.Intersections.new RT.exampleIxs).map (fun ix => (ix.n1, ix.n2)) =
      [(some 1, some (3 / 2)), (some (3 / 2), some 2), (some 2, some (5 / 2)),
        (some (5 / 2), some (5 / 2)), (some (5 / 2), some (3 / 2)),
        (some (3 / 2), some 1)] := by
  constructor
  · intro l hi h
    exact ⟨(RT.refr_pass_spec l hi h).1, (RT.refr_pass_spec l hi h).2.1⟩
  · simp [RT.Intersections.new, RT.compute_refractive_indices, RT.exampleIxs,
      RT.mkIx, RT.refrAnnotate, RT.refrInner, RT.updateContainers, RT.position,
      RT.refrOfTop, RT.sphereA_ne_B, RT.sphereA_ne_C, RT.sphereB_ne_C,
      RT.objectEq_refl, RT.sphereA_refr, RT.sphereB_refr, RT.sphereC_refr,
      List.eraseIdx]

/-- C2 witness: the general stack property applied to the concrete
six-intersection list at its first position. -/
theorem C2_refractive_index_stack_witness :
    ((RT.Intersections.new RT.exampleIxs).getD 0 RT.Intersection.default).n1 =
        some (RT.refrOfTop (RT.containersBefore RT.exampleIxs 0)) ∧
    ((RT.Intersections.new RT.exampleIxs).getD 0 RT.Intersection.default).n2 =
        some (RT.refrOfTop (RT.updateContainers (RT.containersBefore RT.exampleIxs 0)
          (RT.exampleIxs.getD 0 RT.Intersection.default).object)) :=
  C2_refractive_index_stack.1 RT.exampleIxs 0 (by simp [RT.exampleIxs])

/-- C10: `Intersections::new` always runs the refractive-index pass
over the whole list, so every intersection in the collection has both
`n1` and `n2` populated; the unwrapping accessors `n1()`/`n2()`
therefore never panic on a collection built by the public
constructor. -/
theorem C10_new_populates_refractive_indices (l : List (RT.Intersection ℚ)) :
    ∀ ix ∈ RT.Intersections.new l, ix.n1.isSome = true ∧ ix.n2.isSome = true := by
  intro ix hmem
  obtain ⟨j, hj, hget⟩ := List.mem_iff_getElem.mp hmem
  have hlen : j < l.length := by
    have := RT.refrAnnotate_length (α := ℚ) l 0 l
    rw [RT.Intersections.new, RT.compute_refractive_indices] at hj
    omega
  have hD : (RT.Intersections.new l).getD j RT.Intersection.default = ix := by
    rw [List.getD_eq_getElem?_getD, List.getElem?_eq_getElem hj, Option.getD_some, hget]
  have h1 := (RT.refr_pass_spec l j hlen).1
  have h2 := (RT.refr_pass_spec l j hlen).2.1
  rw [hD] at h1 h2
  rw [h1, h2]
  exact ⟨rfl, rfl⟩

/-- C10 witness: the singleton list of the default intersection; its
single element comes out of the constructor with `n1 = n2 = some 1`. -/
theorem C10_new_populates_refractive_indices_witness :
    ({ RT.Intersection.default with n1 := some 1, n2 := some 1 } :
        RT.Intersection ℚ).n1.isSome = true ∧
    ({ RT.Intersection.default with n1 := some 1, n2 := some 1 } :
        RT.Intersection ℚ).n2.isSome = true := by
  exact C10_new_populates_refractive_indices
    [(RT.Intersection.default : RT.Intersection ℚ)] _ (List.Mem.head _)

/-- C3: `hit` returns the intersection with the smallest strictly
positive distance; a zero or negative distance never qualifies; among
equal smallest positive distances the first-occurring one wins; and
`hit` is `none` exactly when no distance is strictly positive.  The
two concrete conjuncts check the documented `{5, 7, -3, 2}` and
all-negative examples. -/
theorem C3_hit_smallest_positive :
    (∀ l : List (RT.Intersection ℚ),
      (RT.hit l = none ↔ ∀ ix ∈ l, ¬ 0 < ix.distance) ∧
      (∀ ix, RT.hit l = some ix → ∃ j, j < l.length ∧
        l.getD j RT.Intersection.default = ix ∧ 0 < ix.distance ∧
        (∀ k, k < l.length → 0 < (l.getD k RT.Intersection.default).distance →
          ix.distance ≤ (l.getD k RT.Intersection.default).distance) ∧
        (∀ k, k < j → 0 < (l.getD k RT.Intersection.default).distance →
          ix.distance < (l.getD k RT.Intersection.default).distance))) ∧
    (RT.hit [RT.mkDist 5, RT.mkDist 7, RT.mkDist (-3), RT.mkDist 2]).map
        (fun ix => ix.distance) = some 2 ∧
    RT.hit [RT.mkDist (-3), RT.mkDist (-7)] = none := by
  have hbeats : ∀ d : ℚ, RT.beats (none : Option ℚ) d ↔ 0 < d := by
    intro d; simp [RT.beats]
  refine ⟨?_, ?_, ?_⟩
  · intro l
    constructor
    · rw [RT.hit, RT.hit_index, RT.hit_index_aux_eq]
      cases hfm : RT.firstMin l (none : Option ℚ) with
      | none =>
        simp only [Option.bind_eq_bind, Option.none_bind, true_iff]
        intro ix hmem
        rw [← hbeats ix.distance]
        exact (RT.firstMin_none_iff l none).mp hfm ix hmem
      | some j =>
        obtain ⟨hlen, hb, -, -⟩ := RT.firstMin_some_spec l none j hfm
        have hget : l.get? j = some (l.getD j RT.Intersection.default) := by
          rw [List.getD_eq_getElem?_getD, List.get?_eq_getElem?,
            List.getElem?_eq_getElem hlen, Option.getD_some]
        simp only [Option.bind_eq_bind, Option.some_bind, Nat.zero_add, hget]
        constructor
        · intro h; exact absurd h (by simp)
        · intro h
          exact absurd ((hbeats _).mp hb)
            (h (l.getD j RT.Intersection.default)
              (by rw [List.getD_eq_getElem?_getD, List.getElem?_eq_getElem hlen,
                    Option.getD_some]
                  exact List.getElem_mem hlen))
    · intro ix hsome
      rw [RT.hit, RT.hit_index, RT.hit_index_aux_eq] at hsome
      cases hfm : RT.firstMin l (none : Option ℚ) with
      | none => rw [hfm] at hsome; simp at hsome
      | some j =>
        rw [hfm] at hsome
        simp only [Option.bind_eq_bind, Option.some_bind, Nat.zero_add] at hsome
        obtain ⟨hlen, hb, hmin, hfirst⟩ := RT.firstMin_some_spec l none j hfm
        have hgetD : l.getD j RT.Intersection.default = ix := by
          rw [List.getD_eq_getElem?_getD, ← List.get?_eq_getElem?, hsome,
            Option.getD_some]
        refine ⟨j, hlen, hgetD, ?_, ?_, ?_⟩
        · rw [← hgetD]; exact ((hbeats _).mp hb)
        · intro k hk hpos
          rw [← hgetD]
          exact hmin k hk ((hbeats _).mpr hpos)
        · intro k hk hpos
          rw [← hgetD]
          exact hfirst k hk ((hbeats _).mpr hpos)
  · simp [RT.hit, RT.hit_index, RT.hit_index_aux, RT.mkDist,
      RT.Intersection.default, Option.mem_def]
    norm_num
  · simp [RT.hit, RT.hit_index, RT.hit_index_aux, RT.mkDist,
      RT.Intersection.default, Option.mem_def]
    norm_num
    simp

/-- C3 witness: the hit over distances `{5, 7, -3, 2}` is the
intersection at distance `2`, and the general part applied to it
yields its strict positivity. -/
theorem C3_hit_smallest_positive_witness : 0 < (RT.mkDist 2).distance := by
  have hsome : RT.hit [RT.mkDist 5, RT.mkDist 7, RT.mkDist (-3), RT.mkDist 2] =
      some (RT.mkDist 2) := by
    simp [RT.hit, RT.hit_index, RT.hit_index_aux, RT.mkDist,
      RT.Intersection.default, Option.mem_def]
    norm_num
  obtain ⟨j, -, -, hpos, -, -⟩ :=
    (C3_hit_smallest_positive.1
      [RT.mkDist 5, RT.mkDist 7, RT.mkDist (-3), RT.mkDist 2]).2 (RT.mkDist 2) hsome
  exact hpos

namespace RT

/-- `object.rs`: `struct PointLight { position, colour }`. -/
structure PointLight (α : Type) where
  position : Float4 α
  colour : Colour α

/-- `Float4::mag`: Euclidean norm of all four components. -/
noncomputable def Float4.mag (v : Float4 ℝ) : ℝ :=
  Real.sqrt (v.x * v.x + v.y * v.y + v.z * v.z + v.w * v.w)

/-- `Float4::normalise`: divide every component by the magnitude. -/
noncomputable def Float4.normalise (v : Float4 ℝ) : Float4 ℝ :=
  Float4.new (v.x / v.mag) (v.y / v.mag) (v.z / v.mag) (v.w / v.mag)

/-- `impl Mul<Float4> for Matrix`: convert the `Float4` to a 4×1
matrix, multiply, convert back — component `i` of the result is row
`i` of the matrix dotted with the vector. -/
noncomputable def matVec (M : Mtx.Mat ℝ 4) (v : Float4 ℝ) : Float4 ℝ :=
  Float4.new
    (M 0 0 * v.x + M 0 1 * v.y + M 0 2 * v.z + M 0 3 * v.w)
    (M 1 0 * v.x + M 1 1 * v.y + M 1 2 * v.z + M 1 3 * v.w)
    (M 2 0 * v.x + M 2 1 * v.y + M 2 2 * v.z + M 2 3 * v.w)
    (M 3 0 * v.x + M 3 1 * v.y + M 3 2 * v.z + M 3 3 * v.w)

/-- `Ray::transform`: multiply origin and direction by the matrix. -/
noncomputable def Ray.transformBy (r : Ray ℝ) (m : Mtx.Mat ℝ 4) : Ray ℝ :=
  ⟨matVec m r.origin, matVec m r.direction⟩

/-- `Object::normal_at`: inverse-transform the point, take the
shape-local normal, map back by the transposed inverse (the source
calls `inverse().unwrap()` twice), zero the `w` component, normalise.
A non-invertible transform panics (`none`). -/
noncomputable def Object.normal_at (o : Object ℝ) (world_point : Float4 ℝ) :
    Option (Float4 ℝ) :=
  match Mtx.inverse o.transform with
  | none => none
  | some inv =>
    let object_point := matVec inv world_point
    let object_normal :=
      match o.shape with
      | Shape.Sphere => object_point.sub Float4.origin
      | Shape.Plane => Float4.new_vector 0 1 0
    match Mtx.inverse o.transform with
    | none => none
    | some inv2 =>
      let world_normal := matVec (Mtx.transpose inv2) object_normal
      some ({ world_normal with w := 0 }.normalise)

open Classical in
/-- `Intersection::new`: compute the eager per-hit data; flip the
normal (recording `inside`) when it points away from the eye. -/
noncomputable def Intersection.new (ray : Ray ℝ) (object : Object ℝ) (distance : ℝ) :
    Option (Intersection ℝ) :=
  let point := ray.position distance
  let eyev := ray.direction.neg
  match object.normal_at point with
  | none => none
  | some normal0 =>
    let inside : Bool := decide (normal0.dot eyev < 0)
    let normalv := if inside then normal0.neg else normal0
    match Float4.reflect ray.direction normalv with
    | none => none
    | some reflectv =>
      some ⟨distance, point, eyev, normalv, reflectv, inside, ray, object, none, none⟩

/-- The final Schlick expression `r0 + (1 - r0) * (1 - cos)^5` with
`r0 = ((n1 - n2) / (n1 + n2))^2`. -/
noncomputable def schlickFormula (n1 n2 c : ℝ) : ℝ :=
  ((n1 - n2) / (n1 + n2)) ^ 2 + (1 - ((n1 - n2) / (n1 + n2)) ^ 2) * (1 - c) ^ 5

/-- `Intersection::schlick`: unwraps `n1`/`n2` (panic — `none` — when
missing); `cos = dot(eyev, normalv)`; when `n1 > n2`, total internal
reflection (`sin2_t > 1`) returns exactly `1.0`, otherwise `cos` is
replaced by `sqrt(1 - sin2_t)`; finally the Schlick formula. -/
noncomputable def Intersection.schlick (i : Intersection ℝ) : Option ℝ :=
  match i.n1, i.n2 with
  | some n1, some n2 =>
    let cos := i.eyev.dot i.normalv
    if n1 > n2 then
      let n := n1 / n2
      let sin2_t := n ^ 2 * (1 - cos ^ 2)
      if sin2_t > 1 then some 1
      else some (schlickFormula n1 n2 (Real.sqrt (1 - sin2_t)))
    else some (schlickFormula n1 n2 cos)
  | _, _ => none

/-- Rust `f64::floor`, as a real. -/
noncomputable def floorR (x : ℝ) : ℝ := (⌊x⌋ : ℤ)

/-- Rust `%` on `f64`: remainder with the sign of the dividend,
`a - b * trunc(a / b)`. -/
noncomputable def rustRem (a b : ℝ) : ℝ :=
  a - b * (if a / b < 0 then (⌈a / b⌉ : ℤ) else (⌊a / b⌋ : ℤ))

/-- `Pattern::at`: the closed-form colour functions.  In the
`Gradient` arm the source writes `(colour2 - colour1) * (x - x.floor())`;
the crate in this snapshot has no `impl Mul<f64> for Colour`, so the
scaling is modelled from the spec ("linear interpolation between the
two colours"), i.e. `scalar_product`. -/
noncomputable def Pattern.at (p : Pattern ℝ) (point : Float4 ℝ) : Colour ℝ :=
  match p.kind with
  | PatternKind.Stripe c1 c2 =>
      if float_is_eq (rustRem (floorR point.x) 2) 0 then c1 else c2
  | PatternKind.Gradient c1 c2 =>
      c1 + (c2.sub c1).scalar_product (point.x - floorR point.x)
  | PatternKind.Ring c1 c2 =>
      if float_is_eq (rustRem (floorR (Real.sqrt (point.x ^ 2 + point.z ^ 2))) 2) 0
      then c1 else c2
  | PatternKind.Checkers c1 c2 =>
      if float_is_eq (rustRem (floorR point.x + floorR point.y + floorR point.z) 2) 0
      then c1 else c2
  | PatternKind.TestLocation => Colour.new point.x point.y point.z

/-- `Pattern::at_object`: world point → object space → pattern space
(two `inverse().unwrap()` calls), then the closed-form function. -/
noncomputable def Pattern.at_object (p : Pattern ℝ) (point : Float4 ℝ)
    (object : Object ℝ) : Option (Colour ℝ) :=
  match Mtx.inverse object.transform with
  | none => none
  | some invO =>
    match Mtx.inverse p.transform with
    | none => none
    | some invP => some (p.at (matVec invP (matVec invO point)))

/-- The base-colour resolution of `Object::lighting`:
`self.material().pattern.as_ref().map_or(self.material.colour,
|pattern| pattern.at_object(point, self))`. -/
noncomputable def resolved_colour (o : Object ℝ) (point : Float4 ℝ) :
    Option (Colour ℝ) :=
  match o.material.pattern with
  | none => some o.material.colour
  | some p => p.at_object point o

/-- `Object::lighting` (`object.rs` lines 84-127): resolve the base
colour (pattern or flat), `effective_colour = colour ⊙ light.colour`,
`ambient = effective_colour · material.ambient`; in shadow return
`ambient` alone; with the light behind the surface
(`light_dot_normal < 0`) diffuse and specular are black; otherwise the
Phong diffuse and specular terms (specular black when
`reflect_dot_eye ≤ 0`, else `reflect_dot_eye ^ shininess` via
`f64::powf`). -/
noncomputable def Object.lighting (o : Object ℝ) (light : PointLight ℝ)
    (point eyev normalv : Float4 ℝ) (in_shadow : Bool) : Option (Colour ℝ) :=
  match resolved_colour o point with
  | none => none
  | some colour =>
    let effective_colour := colour.hadamard_product light.colour
    let ambient := effective_colour.scalar_product o.material.ambient
    if in_shadow then some ambient
    else
      let lightv := (light.position.sub point).normalise
      let light_dot_normal := lightv.dot normalv
      if light_dot_normal < 0 then some (ambient + Colour.black + Colour.black)
      else
        let diffuse := effective_colour.scalar_product
          (o.material.diffuse * light_dot_normal)
        match Float4.reflect lightv.neg normalv with
        | none => none
        | some reflectv =>
          let reflect_dot_eye := reflectv.dot eyev
          let specular :=
            if reflect_dot_eye ≤ 0 then Colour.black
            else Colour.scalar_product light.colour
              (o.material.specular * Real.rpow reflect_dot_eye o.material.shininess)
          some (ambient + diffuse + specular)

/-- `Object::intersect`: inverse-transform the ray (panic — `none` —
if the transform is singular), solve the shape-local equation (sphere
quadratic, plane linear), build the `Intersection`s and run the
per-object refractive-index pass (`Intersections::new`). -/
noncomputable def Object.intersect (o : Object ℝ) (ray : Ray ℝ) :
    Option (List (Intersection ℝ)) :=
  match Mtx.inverse o.transform with
  | none => none
  | some inv =>
    let object_space_ray := ray.transformBy inv
    let distances : List ℝ :=
      match o.shape with
      | Shape.Sphere =>
        let sphere_to_ray := object_space_ray.origin.sub Float4.origin
        let a := object_space_ray.direction.dot object_space_ray.direction
        let b := 2 * object_space_ray.direction.dot sphere_to_ray
        let c := sphere_to_ray.dot sphere_to_ray - 1
        let discriminant := b ^ 2 - 4 * a * c
        if discriminant < 0 then []
        else [(-b - Real.sqrt discriminant) / (2 * a),
          (-b + Real.sqrt discriminant) / (2 * a)]
      | Shape.Plane =>
        if |object_space_ray.direction.y| < EPSILON ℝ then []
        else [-object_space_ray.origin.y / object_space_ray.direction.y]
    match distances.mapM (fun d => Intersection.new ray o d) with
    | none => none
    | some is => some (Intersections.new is)

/-- `world.rs`: `struct World { light, objects }`. -/
structure World where
  light : PointLight ℝ
  objects : List (Object ℝ)

/-- `is.sort_by(|a, b| a.distance().total_cmp(&b.distance()))`:
stable sort by ascending distance. -/
noncomputable def sortByDistance (l : List (Intersection ℝ)) : List (Intersection ℝ) :=
  l.mergeSort (fun a b => decide (a.distance ≤ b.distance))

/-- `World::intersect`: all objects' intersections flattened in
object order, sorted by distance, then the world-level
refractive-index pass (`Intersections::new`). -/
noncomputable def World.intersect (w : World) (ray : Ray ℝ) :
    Option (List (Intersection ℝ)) :=
  match w.objects.mapM (fun o => Object.intersect o ray) with
  | none => none
  | some ls => some (Intersections.new (sortByDistance ls.flatten))

open Classical in
/-- `World::is_shadowed`: cast a ray from the point toward the light;
shadowed iff the nearest positive hit is strictly closer than the
light. -/
noncomputable def World.is_shadowed (w : World) (point : Float4 ℝ) : Option Bool :=
  let v := w.light.position.sub point
  let distance := v.mag
  let direction := v.normalise
  match World.intersect w ⟨point, direction⟩ with
  | none => none
  | some is =>
    some (match hit is with
          | some h => decide (h.distance < distance)
          | none => false)

end RT

namespace RT

mutual

/-- `World::shade_hit`: surface colour from `lighting` at
`over_point` with the shadow test, plus the reflected and refracted
contributions, Schlick-blended when the material is both reflective
and transparent.  The `Colour * f64` scalings of `world.rs` (no such
`impl` exists in this snapshot of the crate) are modelled from the
spec: "scale by `material.reflective`", i.e. `scalar_product`. -/
noncomputable def shade_hit (w : World) (i : Intersection ℝ) (remaining : ℕ) :
    Option (Colour ℝ) :=
  match World.is_shadowed w i.over_point with
  | none => none
  | some sh =>
    match Object.lighting i.object w.light i.over_point i.eyev i.normalv sh with
    | none => none
    | some surface =>
      match reflected_colour w i remaining with
      | none => none
      | some reflected =>
        match refracted_colour w i remaining with
        | none => none
        | some refracted =>
          if 0 < i.object.material.reflective ∧ 0 < i.object.material.transparency then
            match Intersection.schlick i with
            | none => none
            | some reflectance =>
              some (surface + reflected.scalar_product reflectance +
                refracted.scalar_product (1 - reflectance))
          else some (surface + reflected + refracted)
termination_by (remaining, 1)

/-- `World::colour_at`: intersect the world, shade the hit, black if
there is none. -/
noncomputable def colour_at (w : World) (ray : Ray ℝ) (remaining : ℕ) :
    Option (Colour ℝ) :=
  match World.intersect w ray with
  | none => none
  | some is =>
    match hit is with
    | none => some Colour.black
    | some i => shade_hit w i remaining
termination_by (remaining, 2)

/-- `World::reflected_colour`: black when the depth budget is
exhausted or the material is not reflective; otherwise recurse along
the reflection ray with `remaining - 1`. -/
noncomputable def reflected_colour (w : World) (i : Intersection ℝ) (remaining : ℕ) :
    Option (Colour ℝ) :=
  if h : remaining = 0 ∨ float_is_eq i.object.material.reflective 0 then
    some Colour.black
  else
    match colour_at w ⟨i.over_point, i.reflectv⟩ (remaining - 1) with
    | none => none
    | some c => some (c.scalar_product i.object.material.reflective)
termination_by (remaining, 0)

/-- `World::refracted_colour`: black when the depth budget is
exhausted, the material is not transparent, or total internal
reflection occurs; otherwise recurse along the Snell refraction ray
with `remaining - 1`.  Unwrapping `n1`/`n2` panics (`none`) if the
refractive-index pass has not filled them. -/
noncomputable def refracted_colour (w : World) (i : Intersection ℝ) (remaining : ℕ) :
    Option (Colour ℝ) :=
  if h : remaining = 0 ∨ float_is_eq i.object.material.transparency 0 then
    some Colour.black
  else
    match i.n1, i.n2 with
    | some n1, some n2 =>
      let n_ratio := n1 / n2
      let cos_i := i.eyev.dot i.normalv
      let sin2_t := n_ratio ^ 2 * (1 - cos_i ^ 2)
      if 1 < sin2_t then some Colour.black
      else
        let cos_t := Real.sqrt (1 - sin2_t)
        let direction := (i.normalv.scalar_mul (n_ratio * cos_i - cos_t)).sub
          (i.eyev.scalar_mul n_ratio)
        match colour_at w ⟨i.under_point, direction⟩ (remaining - 1) with
        | none => none
        | some c => some (c.scalar_product i.object.material.transparency)
    | _, _ => none
termination_by (remaining, 0)

end

end RT

namespace RT

mutual

/-- Fuel-instrumented `shade_hit`: identical body, but every call
between the four mutually recursive functions spends one unit of
fuel.  Outer `none` = out of fuel; `some none` = the underlying
computation panics; `some (some c)` = it returns `c`. -/
noncomputable def shadeHitFuel : ℕ → World → Intersection ℝ → ℕ →
    Option (Option (Colour ℝ))
  | 0, _, _, _ => none
  | fuel + 1, w, i, remaining =>
    match World.is_shadowed w i.over_point with
    | none => some none
    | some sh =>
      match Object.lighting i.object w.light i.over_point i.eyev i.normalv sh with
      | none => some none
      | some surface =>
        match reflectedColourFuel fuel w i remaining with
        | none => none
        | some none => some none
        | some (some reflected) =>
          match refractedColourFuel fuel w i remaining with
          | none => none
          | some none => some none
          | some (some refracted) =>
            if 0 < i.object.material.reflective ∧ 0 < i.object.material.transparency then
              match Intersection.schlick i with
              | none => some none
              | some reflectance =>
                some (some (surface + reflected.scalar_product reflectance +
                  refracted.scalar_product (1 - reflectance)))
            else some (some (surface + reflected + refracted))

/-- Fuel-instrumented `colour_at`. -/
noncomputable def colourAtFuel : ℕ → World → Ray ℝ → ℕ → Option (Option (Colour ℝ))
  | 0, _, _, _ => none
  | fuel + 1, w, ray, remaining =>
    match World.intersect w ray with
    | none => some none
    | some is =>
      match hit is with
      | none => some (some Colour.black)
      | some i => shadeHitFuel fuel w i remaining

/-- Fuel-instrumented `reflected_colour`. -/
noncomputable def reflectedColourFuel : ℕ → World → Intersection ℝ → ℕ →
    Option (Option (Colour ℝ))
  | 0, _, _, _ => none
  | fuel + 1, w, i, remaining =>
    if remaining = 0 ∨ float_is_eq i.object.material.reflective 0 then
      some (some Colour.black)
    else
      match colourAtFuel fuel w ⟨i.over_point, i.reflectv⟩ (remaining - 1) with
      | none => none
      | some none => some none
      | some (some c) => some (some (c.scalar_product i.object.material.reflective))

/-- Fuel-instrumented `refracted_colour`. -/
noncomputable def refractedColourFuel : ℕ → World → Intersection ℝ → ℕ →
    Option (Option (Colour ℝ))
  | 0, _, _, _ => none
  | fuel + 1, w, i, remaining =>
    if remaining = 0 ∨ float_is_eq i.object.material.transparency 0 then
      some (some Colour.black)
    else
      match i.n1, i.n2 with
      | some n1, some n2 =>
        let n_ratio := n1 / n2
        let cos_i := i.eyev.dot i.normalv
        let sin2_t := n_ratio ^ 2 * (1 - cos_i ^ 2)
        if 1 < sin2_t then some (some Colour.black)
        else
          let cos_t := Real.sqrt (1 - sin2_t)
          let direction := (i.normalv.scalar_mul (n_ratio * cos_i - cos_t)).sub
            (i.eyev.scalar_mul n_ratio)
          match colourAtFuel fuel w ⟨i.under_point, direction⟩ (remaining - 1) with
          | none => none
          | some none => some none
          | some (some c) =>
            some (some (c.scalar_product i.object.material.transparency))
      | _, _ => some none

end

end RT

namespace RT

theorem shadeHitFuel_adequate (remaining k : ℕ)
    (h1 : ∀ (fuel : ℕ) (w : World) (i : Intersection ℝ), k ≤ fuel →
      reflectedColourFuel fuel w i remaining = some (reflected_colour w i remaining) ∧
      refractedColourFuel fuel w i remaining = some (refracted_colour w i remaining)) :
    ∀ (fuel : ℕ) (w : World) (i : Intersection ℝ), k + 1 ≤ fuel →
      shadeHitFuel fuel w i remaining = some (shade_hit w i remaining) := by
  intro fuel w i hf
  obtain ⟨f, rfl⟩ : ∃ f, fuel = f + 1 := ⟨fuel - 1, by omega⟩
  have hk : k ≤ f := by omega
  rw [shadeHitFuel, shade_hit]
  cases World.is_shadowed w i.over_point with
  | none => rfl
  | some sh =>
    dsimp only
    cases Object.lighting i.object w.light i.over_point i.eyev i.normalv sh with
    | none => rfl
    | some surface =>
      dsimp only
      rw [(h1 f w i hk).1, (h1 f w i hk).2]
      cases reflected_colour w i remaining with
      | none => rfl
      | some reflected =>
        dsimp only
        cases refracted_colour w i remaining with
        | none => rfl
        | some refracted =>
          dsimp only
          by_cases hc : 0 < i.object.material.reflective ∧
              0 < i.object.material.transparency
          · rw [if_pos hc, if_pos hc]
            cases Intersection.schlick i <;> rfl
          · rw [if_neg hc, if_neg hc]

theorem colourAtFuel_adequate (remaining k : ℕ)
    (h2 : ∀ (fuel : ℕ) (w : World) (i : Intersection ℝ), k ≤ fuel →
      shadeHitFuel fuel w i remaining = some (shade_hit w i remaining)) :
    ∀ (fuel : ℕ) (w : World) (ray : Ray ℝ), k + 1 ≤ fuel →
      colourAtFuel fuel w ray remaining = some (colour_at w ray remaining) := by
  intro fuel w ray hf
  obtain ⟨f, rfl⟩ : ∃ f, fuel = f + 1 := ⟨fuel - 1, by omega⟩
  have hk : k ≤ f := by omega
  rw [colourAtFuel, colour_at]
  cases World.intersect w ray with
  | none => rfl
  | some is =>
    dsimp only
    cases hit is with
    | none => rfl
    | some i =>
      dsimp only
      exact h2 f w i hk

theorem reflrefrFuel_zero :
    ∀ (fuel : ℕ) (w : World) (i : Intersection ℝ), 1 ≤ fuel →
      reflectedColourFuel fuel w i 0 = some (reflected_colour w i 0) ∧
      refractedColourFuel fuel w i 0 = some (refracted_colour w i 0) := by
  intro fuel w i hf
  obtain ⟨f, rfl⟩ : ∃ f, fuel = f + 1 := ⟨fuel - 1, by omega⟩
  constructor
  · rw [reflectedColourFuel, reflected_colour]
    rw [if_pos (Or.inl rfl), dif_pos (Or.inl rfl)]
  · rw [refractedColourFuel, refracted_colour]
    rw [if_pos (Or.inl rfl), dif_pos (Or.inl rfl)]

theorem reflrefrFuel_succ (rem k : ℕ)
    (h3 : ∀ (fuel : ℕ) (w : World) (ray : Ray ℝ), k ≤ fuel →
      colourAtFuel fuel w ray rem = some (colour_at w ray rem)) :
    ∀ (fuel : ℕ) (w : World) (i : Intersection ℝ), k + 1 ≤ fuel →
      reflectedColourFuel fuel w i (rem + 1) =
        some (reflected_colour w i (rem + 1)) ∧
      refractedColourFuel fuel w i (rem + 1) =
        some (refracted_colour w i (rem + 1)) := by
  intro fuel w i hf
  obtain ⟨f, rfl⟩ : ∃ f, fuel = f + 1 := ⟨fuel - 1, by omega⟩
  have hk : k ≤ f := by omega
  constructor
  · rw [reflectedColourFuel, reflected_colour]
    by_cases hc : rem + 1 = 0 ∨ float_is_eq i.object.material.reflective 0
    · rw [if_pos hc, dif_pos hc]
    · rw [if_neg hc, dif_neg hc]
      simp only [Nat.add_sub_cancel]
      rw [h3 f w ⟨i.over_point, i.reflectv⟩ hk]
      cases colour_at w ⟨i.over_point, i.reflectv⟩ rem <;> rfl
  · rw [refractedColourFuel, refracted_colour]
    by_cases hc : rem + 1 = 0 ∨ float_is_eq i.object.material.transparency 0
    · rw [if_pos hc, dif_pos hc]
    · rw [if_neg hc, dif_neg hc]
      cases i.n1 with
      | none => cases i.n2 <;> rfl
      | some n1 =>
        cases i.n2 with
        | none => rfl
        | some n2 =>
          dsimp only
          simp only [Nat.add_sub_cancel]
          by_cases hs : 1 < (n1 / n2) ^ 2 * (1 - (i.eyev.dot i.normalv) ^ 2)
          · rw [if_pos hs, if_pos hs]
          · rw [if_neg hs, if_neg hs]
            rw [h3 f w _ hk]
            cases colour_at w
              ⟨i.under_point,
                (i.normalv.scalar_mul ((n1 / n2) * (i.eyev.dot i.normalv) -
                  Real.sqrt (1 - (n1 / n2) ^ 2 * (1 - (i.eyev.dot i.normalv) ^ 2)))).sub
                  (i.eyev.scalar_mul (n1 / n2))⟩ rem <;> rfl

/-- The fuel-instrumented interpreter completes — and agrees with the
mutually recursive shading functions — once the fuel exceeds
`3 * remaining + 3`: every chain of nested calls of the mutual
recursion `colour_at`/`shade_hit`/`reflected_colour`/`refracted_colour`
is bounded linearly by the depth budget, for every world and ray. -/
theorem colourAtFuel_adequate_all :
    ∀ (remaining fuel : ℕ) (w : World) (ray : Ray ℝ), 3 * remaining + 3 ≤ fuel →
      colourAtFuel fuel w ray remaining = some (colour_at w ray remaining) := by
  intro remaining
  induction remaining with
  | zero =>
    intro fuel w ray hf
    exact colourAtFuel_adequate 0 2
      (fun fuel w i hk => shadeHitFuel_adequate 0 1 reflrefrFuel_zero fuel w i hk)
      fuel w ray (by omega)
  | succ rem ih =>
    intro fuel w ray hf
    have h1 := reflrefrFuel_succ rem (3 * rem + 3) (fun fuel w ray hk => ih fuel w ray hk)
    have h2 := shadeHitFuel_adequate (rem + 1) (3 * rem + 4) h1
    have h3 := colourAtFuel_adequate (rem + 1) (3 * rem + 5) h2
    exact h3 fuel w ray (by omega)

/-- An empty world (a light and no objects), used in the C4 witness. -/
noncomputable def emptyWorld : World :=
  ⟨⟨Float4.new_point 0 0 0, Colour.white⟩, []⟩

/-- A fixed ray, used in the C4 witness. -/
noncomputable def axisRay : Ray ℝ := ⟨Float4.origin, Float4.new_vector 0 0 1⟩

end RT

namespace RT

variable {α : Type} [LinearOrderedField α]

theorem Colour.add_black (c : Colour α) : c + Colour.black = c := by
  cases c
  simp [Colour.add_def, Colour.black, Colour.new]

/-- The glass sphere of the `schlick` test in `ray.rs` (identity
transform, transparency 1, refractive index 1.5). -/
noncomputable def glassSphere : Object ℝ :=
  ⟨Shape.Sphere, identity4,
    { Material.default with transparency := 1, refractive_index := 3 / 2 }⟩

/-- The second intersection (`t = √2/2`) of the ray from
`(0, 0, √2/2)` in direction `(0, 1, 0)` with the glass sphere, with
the fields `Intersection::new` computes for it: the hit point is
`(0, √2/2, √2/2)`, the eye vector is `(0, -1, 0)`, the outward normal
`(0, √2/2, √2/2)` points away from the eye so it is flipped and
`inside` is set, and the refractive-index pass on the two
intersections of the same sphere gives `n1 = 1.5` (leaving the
sphere) and `n2 = 1.0` (vacuum). -/
noncomputable def glassExample : Intersection ℝ where
  distance := Real.sqrt 2 / 2
  point := Float4.new 0 (Real.sqrt 2 / 2) (Real.sqrt 2 / 2) 1
  eyev := Float4.new 0 (-1) 0 0
  normalv := Float4.new 0 (-(Real.sqrt 2 / 2)) (-(Real.sqrt 2 / 2)) 0
  reflectv := Float4.new 0 0 (-1) 0
  inside := true
  ray := ⟨Float4.new_point 0 0 (Real.sqrt 2 / 2), Float4.new_vector 0 1 0⟩
  object := glassSphere
  n1 := some (3 / 2)
  n2 := some 1

/-- A unit sphere with the default material, used in the C9
witness. -/
noncomputable def plainSphere : Object ℝ :=
  ⟨Shape.Sphere, identity4, Material.default⟩

/-- A white point light, used in the C9 witness. -/
noncomputable def whiteLight : PointLight ℝ :=
  ⟨Float4.new_point 0 0 (-10), Colour.white⟩

end RT

/-- C4: the recursion depth budget.  `reflected_colour` and
`refracted_colour` return black immediately when the remaining depth
is `0` or when the material's reflective (respectively transparency)
coefficient is approximately `0`; and the fuel-instrumented
interpreter — which spends one unit of fuel on every call among the
mutually recursive `colour_at`/`shade_hit`/`reflected_colour`/
`refracted_colour` — completes, agreeing with the total functions,
whenever `fuel ≥ 3·d + 3`: every chain of nested calls is bounded
linearly by the depth budget `d`, for EVERY world (mutually
reflective geometry such as two parallel mirrors included) and every
ray, because each pass through `reflected_colour`/`refracted_colour`
recurses with the depth strictly decreased by one. -/
theorem C4_recursion_depth_budget :
    (∀ (w : RT.World) (i : RT.Intersection ℝ),
      RT.reflected_colour w i 0 = some RT.Colour.black) ∧
    (∀ (w : RT.World) (i : RT.Intersection ℝ),
      RT.refracted_colour w i 0 = some RT.Colour.black) ∧
    (∀ (w : RT.World) (i : RT.Intersection ℝ) (remaining : ℕ),
      RT.float_is_eq i.object.material.reflective 0 →
      RT.reflected_colour w i remaining = some RT.Colour.black) ∧
    (∀ (w : RT.World) (i : RT.Intersection ℝ) (remaining : ℕ),
      RT.float_is_eq i.object.material.transparency 0 →
      RT.refracted_colour w i remaining = some RT.Colour.black) ∧
    (∀ (remaining fuel : ℕ) (w : RT.World) (ray : RT.Ray ℝ),
      3 * remaining + 3 ≤ fuel →
      RT.colourAtFuel fuel w ray remaining = some (RT.colour_at w ray remaining)) := by
  refine ⟨?_, ?_, ?_, ?_, RT.colourAtFuel_adequate_all⟩
  · intro w i
    rw [RT.reflected_colour, dif_pos (Or.inl rfl)]
  · intro w i
    rw [RT.refracted_colour, dif_pos (Or.inl rfl)]
  · intro w i remaining h
    rw [RT.reflected_colour, dif_pos (Or.inr h)]
  · intro w i remaining h
    rw [RT.refracted_colour, dif_pos (Or.inr h)]

/-- C4 witness: at depth budget `0` and fuel `3`, the interpreter
completes on the empty world. -/
theorem C4_recursion_depth_budget_witness :
    RT.colourAtFuel 3 RT.emptyWorld RT.axisRay 0 =
      some (RT.colour_at RT.emptyWorld RT.axisRay 0) :=
  C4_recursion_depth_budget.2.2.2.2 0 3 RT.emptyWorld RT.axisRay (by norm_num)

/-- C5: `schlick` returns exactly `1.0` under total internal
reflection (`n1 > n2` and `sin2_t = (n1/n2)^2 * (1 - cos^2) > 1` with
`cos = dot(eyev, normalv)`), and otherwise returns
`r0 + (1 - r0) * (1 - cos)^5` with `r0 = ((n1 - n2) / (n1 + n2))^2`,
where `cos` is replaced by `sqrt(1 - sin2_t)` when `n1 > n2`.  The
second conjunct is the documented instance: the second intersection
of the ray from `(0, 0, √2/2)` in direction `(0, 1, 0)` with the
glass sphere (index 1.5) has reflectance exactly `1.0`. -/
theorem C5_schlick_reflectance :
    (∀ (i : RT.Intersection ℝ) (n1 n2 : ℝ), i.n1 = some n1 → i.n2 = some n2 →
      (n1 > n2 → (n1 / n2) ^ 2 * (1 - (RT.Float4.dot i.eyev i.normalv) ^ 2) > 1 →
        RT.Intersection.schlick i = some 1) ∧
      (n1 > n2 → ¬ ((n1 / n2) ^ 2 * (1 - (RT.Float4.dot i.eyev i.normalv) ^ 2) > 1) →
        RT.Intersection.schlick i = some (RT.schlickFormula n1 n2
          (Real.sqrt (1 - (n1 / n2) ^ 2 * (1 - (RT.Float4.dot i.eyev i.normalv) ^ 2))))) ∧
      (¬ n1 > n2 →
        RT.Intersection.schlick i =
          some (RT.schlickFormula n1 n2 (RT.Float4.dot i.eyev i.normalv)))) ∧
    RT.Intersection.schlick RT.glassExample = some 1 := by
  have hgen : ∀ (i : RT.Intersection ℝ) (n1 n2 : ℝ), i.n1 = some n1 → i.n2 = some n2 →
      (n1 > n2 → (n1 / n2) ^ 2 * (1 - (RT.Float4.dot i.eyev i.normalv) ^ 2) > 1 →
        RT.Intersection.schlick i = some 1) ∧
      (n1 > n2 → ¬ ((n1 / n2) ^ 2 * (1 - (RT.Float4.dot i.eyev i.normalv) ^ 2) > 1) →
        RT.Intersection.schlick i = some (RT.schlickFormula n1 n2
          (Real.sqrt (1 - (n1 / n2) ^ 2 * (1 - (RT.Float4.dot i.eyev i.normalv) ^ 2))))) ∧
      (¬ n1 > n2 →
        RT.Intersection.schlick i =
          some (RT.schlickFormula n1 n2 (RT.Float4.dot i.eyev i.normalv))) := by
    intro i n1 n2 h1 h2
    rw [RT.Intersection.schlick, h1, h2]
    dsimp only
    refine ⟨?_, ?_, ?_⟩
    · intro hgt hsin
      rw [if_pos hgt, if_pos hsin]
    · intro hgt hsin
      rw [if_pos hgt, if_neg hsin]
    · intro hgt
      rw [if_neg hgt]
  refine ⟨hgen, ?_⟩
  have hdot : RT.Float4.dot RT.glassExample.eyev RT.glassExample.normalv =
      Real.sqrt 2 / 2 := by
    show RT.Float4.dot (RT.Float4.new 0 (-1) 0 0)
      (RT.Float4.new 0 (-(Real.sqrt 2 / 2)) (-(Real.sqrt 2 / 2)) 0) = Real.sqrt 2 / 2
    rw [RT.Float4.dot]
    show (0 : ℝ) * 0 + (-1) * (-(Real.sqrt 2 / 2)) + 0 * (-(Real.sqrt 2 / 2)) + 0 * 0 =
      Real.sqrt 2 / 2
    ring
  have hsq : (Real.sqrt 2 / 2) ^ 2 = 1 / 2 := by
    rw [div_pow, Real.sq_sqrt (by norm_num : (0 : ℝ) ≤ 2)]
    norm_num
  refine (hgen RT.glassExample (3 / 2) 1 rfl rfl).1 (by norm_num) ?_
  rw [hdot, hsq]
  norm_num

/-- C5 witness: the total-internal-reflection clause of the general
statement applied to the glass-sphere example. -/
theorem C5_schlick_reflectance_witness :
    RT.Intersection.schlick RT.glassExample = some 1 := by
  have hdot : RT.Float4.dot RT.glassExample.eyev RT.glassExample.normalv =
      Real.sqrt 2 / 2 := by
    rw [RT.Float4.dot]
    show (0 : ℝ) * 0 + (-1) * (-(Real.sqrt 2 / 2)) + 0 * (-(Real.sqrt 2 / 2)) + 0 * 0 =
      Real.sqrt 2 / 2
    ring
  have hsq : (Real.sqrt 2 / 2) ^ 2 = (1 / 2 : ℝ) := by
    rw [div_pow, Real.sq_sqrt (by norm_num : (0 : ℝ) ≤ 2)]
    norm_num
  refine (C5_schlick_reflectance.1 RT.glassExample (3 / 2) 1 rfl rfl).1 (by norm_num) ?_
  rw [hdot, hsq]
  norm_num

/-- C9: `lighting` returns exactly the ambient term — the resolved
base colour times the light colour (the source's `hadamard_product`)
scaled by `material.ambient` — both when `in_shadow` is set and when
the light is behind the surface (`dot(lightv, normalv) < 0`, where
`lightv = normalise(light.position - point)`); in the latter case the
diffuse and specular terms are black and `ambient + black + black`
collapses to the ambient term. -/
theorem C9_lighting_ambient_only
    (o : RT.Object ℝ) (light : RT.PointLight ℝ)
    (point eyev normalv : RT.Float4 ℝ) (in_shadow : Bool)
    (h : in_shadow = true ∨
      RT.Float4.dot ((light.position.sub point).normalise) normalv < 0) :
    RT.Object.lighting o light point eyev normalv in_shadow =
      (RT.resolved_colour o point).map
        (fun colour =>
          (colour.hadamard_product light.colour).scalar_product o.material.ambient) := by
  rw [RT.Object.lighting]
  cases hres : RT.resolved_colour o point with
  | none => rfl
  | some colour =>
    dsimp only
    rcases h with h | h
    · subst h
      rw [if_pos rfl]
      rfl
    · cases in_shadow with
      | true => rw [if_pos rfl]; rfl
      | false =>
        rw [if_neg (by simp), if_pos h, RT.Colour.add_black, RT.Colour.add_black]
        rfl

/-- C9 witness: a default-material sphere lit by a white light, in
shadow: the result is the ambient term `(0.1, 0.1, 0.1)`. -/
theorem C9_lighting_ambient_only_witness :
    RT.Object.lighting RT.plainSphere RT.whiteLight RT.Float4.origin
      (RT.Float4.new_vector 0 0 (-1)) (RT.Float4.new_vector 0 0 (-1)) true =
      some (RT.Colour.new (1 / 10) (1 / 10) (1 / 10)) := by
  rw [C9_lighting_ambient_only RT.plainSphere RT.whiteLight RT.Float4.origin
    (RT.Float4.new_vector 0 0 (-1)) (RT.Float4.new_vector 0 0 (-1)) true (Or.inl rfl)]
  show (RT.resolved_colour RT.plainSphere RT.Float4.origin).map _ =
    some (RT.Colour.new (1 / 10) (1 / 10) (1 / 10))
  rw [show RT.resolved_colour RT.plainSphere RT.Float4.origin =
      some (RT.Colour.new 1 1 1) from rfl]
  rw [Option.map_some']
  show some (RT.Colour.scalar_product
      (RT.Colour.hadamard_product (RT.Colour.new 1 1 1) RT.Colour.white) (1 / 10)) =
    some (RT.Colour.new (1 / 10) (1 / 10) (1 / 10))
  rw [RT.Colour.hadamard_product, RT.Colour.scalar_product]
  norm_num [RT.Colour.white, RT.Colour.new]
